import Mathlib

/-!
Verification of `src/tables_generator.py` (cuberbug-walls).

Texts are embedded as `List Char` (`Str`), so that Python string slicing
(`content[:i]`, `content[i:j]`, `content[j:]`) becomes `List.take`/`List.drop`
and `str.find` becomes `strFind` below.  The filesystem is passed explicitly:
the README content is an `Option Str` (`none` = file missing) and a directory
listing is a `List DirEntry`; the only mutation of the Python code
(`readme_path.write_text`) is the `some` result of `processDirectory`.
-/

namespace TablesGenerator

/-- Program texts: Python `str` embedded as a list of characters. -/
abbrev Str := List Char

/-- `strFind text pat` embeds Python `text.find(pat)`: the least index at which
`pat` occurs as a substring of `text` (`none` embeds the `-1` result). -/
def strFind : Str → Str → Option Nat
  | [], pat => if pat.isEmpty then some 0 else none
  | c :: rest, pat =>
    if pat.isPrefixOf (c :: rest) then some 0
    else (strFind rest pat).map (· + 1)

/-- `pat` occurs as a substring of `text` starting at index `i`. -/
def occursAt (pat text : Str) (i : Nat) : Bool :=
  pat.isPrefixOf (text.drop i)

/-- `pat` occurs somewhere in `text` (the marker "is present"). -/
def occursIn (pat text : Str) : Prop :=
  ∃ i, occursAt pat text i = true

/-- Embeds `TableGenerator._find_readme_with_markers` applied to the file's
content: `content.find(opening_marker)`, `content.find(closing_marker)`
(independent searches), slice into `(found, before, generated_block, after)`. -/
def findReadmeWithMarkers (content openingMarker closingMarker : Str) :
    Bool × Str × Str × Str :=
  match strFind content openingMarker, strFind content closingMarker with
  | some startIndex, some endIndex0 =>
    let endIndex := endIndex0 + closingMarker.length
    (true, content.take startIndex,
      (content.drop startIndex).take (endIndex - startIndex),
      content.drop endIndex)
  | _, _ => (false, [], [], [])

section StrFindLemmas

lemma isPrefixOf_nil_iff (p : Str) : p.isPrefixOf ([] : Str) = true ↔ p = [] := by
  cases p <;> simp [List.isPrefixOf]

lemma strFind_eq_some_iff (t p : Str) (i : Nat) :
    strFind t p = some i ↔
      (occursAt p t i = true ∧ ∀ j, j < i → occursAt p t j = false) := by
  induction t generalizing i with
  | nil =>
    by_cases hp : p = []
    · subst hp
      simp only [strFind, List.isEmpty_nil, if_pos rfl, occursAt]
      constructor
      · rintro h
        cases h
        exact ⟨by simp [List.isPrefixOf], by omega⟩
      · rintro ⟨-, hmin⟩
        by_contra hne
        have hi : 0 < i := by
          rcases Nat.eq_zero_or_pos i with h0 | h0
          · exact absurd (by simp [h0]) hne
          · exact h0
        have := hmin 0 hi
        simp [List.isPrefixOf] at this
    · have hpe : p.isEmpty = false := by
        cases p with
        | nil => exact absurd rfl hp
        | cons a as => rfl
      simp only [strFind, hpe, Bool.false_eq_true, if_false, occursAt]
      constructor
      · intro h; cases h
      · rintro ⟨habs, -⟩
        rw [List.drop_nil, show (List.isPrefixOf p [] = true) ↔ p = [] from
          isPrefixOf_nil_iff p] at habs
        exact absurd habs hp
  | cons c rest ih =>
    by_cases h : p.isPrefixOf (c :: rest) = true
    · simp only [strFind, h, if_pos rfl]
      constructor
      · rintro heq
        cases heq
        exact ⟨by simp [occursAt, h], by omega⟩
      · rintro ⟨h0, hmin⟩
        by_contra hne
        have hi : 0 < i := by
          rcases Nat.eq_zero_or_pos i with hz | hz
          · exact absurd (by simp [hz]) hne
          · exact hz
        have := hmin 0 hi
        simp [occursAt, h] at this
    · have hb : p.isPrefixOf (c :: rest) = false := by
        cases hh : p.isPrefixOf (c :: rest)
        · rfl
        · exact absurd hh h
      simp only [strFind, hb, Bool.false_eq_true, if_false]
      cases i with
      | zero =>
        constructor
        · intro hmap
          exfalso
          rcases Option.map_eq_some'.mp hmap with ⟨k, -, hk⟩
          omega
        · rintro ⟨h0, -⟩
          simp only [occursAt, List.drop_zero] at h0
          exact absurd h0 h
      | succ i' =>
        rw [show (Option.map (· + 1) (strFind rest p) = some (i' + 1)) ↔
            strFind rest p = some i' by
          constructor
          · intro hmap
            rcases Option.map_eq_some'.mp hmap with ⟨k, hk, hkeq⟩
            have : k = i' := by omega
            rwa [this] at hk
          · intro hh; rw [hh]; rfl]
        rw [ih i']
        constructor
        · rintro ⟨h0, hmin⟩
          refine ⟨by simpa [occursAt] using h0, ?_⟩
          intro j hj
          cases j with
          | zero => simpa [occursAt] using hb
          | succ j' =>
            have := hmin j' (by omega)
            simpa [occursAt] using this
        · rintro ⟨h0, hmin⟩
          refine ⟨by simpa [occursAt] using h0, ?_⟩
          intro j hj
          have := hmin (j + 1) (by omega)
          simpa [occursAt] using this

lemma strFind_eq_none_iff (t p : Str) :
    strFind t p = none ↔ ∀ i, occursAt p t i = false := by
  constructor
  · intro hn i
    by_contra hocc
    have hocc' : occursAt p t i = true := by
      cases hh : occursAt p t i
      · exact absurd hh hocc
      · rfl
    have hex : ∃ k, occursAt p t k = true := ⟨i, hocc'⟩
    have hsome : strFind t p = some (Nat.find hex) := by
      rw [strFind_eq_some_iff]
      refine ⟨Nat.find_spec hex, ?_⟩
      intro j hj
      have := Nat.find_min hex hj
      cases hh : occursAt p t j
      · rfl
      · exact absurd hh this
    rw [hn] at hsome
    exact Option.noConfusion hsome
  · intro h
    cases hf : strFind t p with
    | none => rfl
    | some k =>
      have := (strFind_eq_some_iff t p k).mp hf
      rw [h k] at this
      exact absurd this.1 (by simp)

end StrFindLemmas

/-! ## Image enumeration (`_find_image_files`) -/

/-- A directory entry as seen by `Path.iterdir()`: a name together with the
`is_file()` flag.  Only these two attributes are consulted by the code. -/
structure DirEntry where
  name : Str
  isFile : Bool
deriving DecidableEq

/-- Index of the last `'.'` in a name (`name.rfind('.')` of CPython's
`PurePath.suffix`), `none` when there is no dot. -/
def rfindDot : Str → Option Nat
  | [] => none
  | c :: rest =>
    match rfindDot rest with
    | some i => some (i + 1)
    | none => if c = '.' then some 0 else none

/-- Embeds `pathlib.PurePath.suffix` for a file name: the final dot-suffix
`name[i:]` when the last dot sits at `0 < i < len(name) - 1`, else `""`. -/
def pathSuffix (name : Str) : Str :=
  match rfindDot name with
  | none => []
  | some i => if 0 < i ∧ i < name.length - 1 then name.drop i else []

/-- Python string comparison on the embedded texts: lexicographic by code
point, shorter prefix first. -/
def lexLe : Str → Str → Bool
  | [], _ => true
  | _ :: _, [] => false
  | a :: as, b :: bs => if a < b then true else if a = b then lexLe as bs else false

/-- One step of the (stable) sorting of names performed by
`image_files.sort(key=lambda p: p.name)`. -/
def insertSorted (x : Str) : List Str → List Str
  | [] => [x]
  | y :: ys => if lexLe x y then x :: y :: ys else y :: insertSorted x ys

/-- Stable ascending sort by name, embedding Python's stable `list.sort`. -/
def sortNames : List Str → List Str
  | [] => []
  | x :: xs => insertSorted x (sortNames xs)

/-- Embeds `TableGenerator._find_image_files` on an explicit directory
listing: keep entries that are files whose lower-cased `suffix` is in the
(already lower-cased) allowed-extensions list, then sort by name.  The Python
code sorts the `Path` objects keyed by `p.name` and only ever reads `.name`
downstream, so the embedding returns the sorted names. -/
def findImageFiles (entries : List DirEntry) (allowedExtensions : List Str) :
    List Str :=
  sortNames ((entries.filter fun e =>
    e.isFile && allowedExtensions.contains ((pathSuffix e.name).map Char.toLower)).map
    (·.name))

/-! ## Table builder (`_generate_table`) -/

/-- The fixed placeholder returned for an empty image list. -/
def placeholderText : Str := "_(В этой директории нет изображений)_".toList

/-- `f"{base_path}/{image_path.name}"` followed by
`f"[![preview]({rel_path})]({rel_path})"`: one table cell. -/
def cellFor (basePath name : Str) : Str :=
  let relPath := basePath ++ '/' :: name
  "[![preview](".toList ++ relPath ++ ")](".toList ++ relPath ++ [')']

/-- `"sep".join(parts)` for the embedded texts. -/
def strJoin (sep : Str) : List Str → Str
  | [] => []
  | [x] => x
  | x :: y :: ys => x ++ sep ++ strJoin sep (y :: ys)

/-- `"| " + " | ".join(cells) + " |"`: one rendered table row. -/
def renderRow (cells : List Str) : Str :=
  "| ".toList ++ strJoin " | ".toList cells ++ " |".toList

/-- `current_row.append(" ")` until it has `columns` cells: right padding of
the final incomplete row. -/
def padRow (columns : Nat) (currentRow : List Str) : List Str :=
  currentRow ++ List.replicate (columns - currentRow.length) [' ']

/-- The cell-packing loop of `_generate_table`: cells are appended to
`current_row`, which is flushed each time it reaches `columns` cells; a final
incomplete row is padded with `" "` cells.  The source renders each row to a
string at flush time; the rendering (`renderRow`) is applied afterwards in
`generateTable`, which produces the same strings. -/
def packRows (columns : Nat) : List Str → List Str → List (List Str)
  | [], currentRow =>
    if currentRow.isEmpty then [] else [padRow columns currentRow]
  | cell :: rest, currentRow =>
    if (currentRow ++ [cell]).length = columns then
      (currentRow ++ [cell]) :: packRows columns rest []
    else
      packRows columns rest (currentRow ++ [cell])

/-- Embeds `TableGenerator._generate_table` on the sorted image names. -/
def generateTable (imageNames : List Str) (basePath : Str) (columns : Nat) :
    Str :=
  if imageNames.isEmpty then placeholderText
  else
    let rows := (packRows columns (imageNames.map (cellFor basePath)) []).map renderRow
    let hiddenHeader := renderRow (List.replicate columns [])
    let headerSeparator := renderRow (List.replicate columns ":---:".toList)
    hiddenHeader ++ '\n' :: headerSeparator ++ '\n' :: strJoin ['\n'] rows

/-! ## Replacement block and directory processing -/

/-- Embeds `TableGenerator._build_generated_block`.  `header`/`footer` are
`Option Str` because `config.get("header", "")` yields Python `None` when the
key is present with a null value, and the join filters out `None` parts. -/
def buildGeneratedBlock (openingMarker : Str) (headerText footerText : Option Str)
    (closingMarker : Str) (table : Str) : Str :=
  strJoin ['\n']
    (([some openingMarker, headerText, some [], some table, some [],
       footerText, some closingMarker] : List (Option Str)).filterMap id)

/-- The configuration fields of `TableGenerator.__init__` that the core logic
reads (paths and excluded directories belong to the orchestration layer). -/
structure Config where
  openingMarker : Str
  closingMarker : Str
  columns : Nat
  headerText : Option Str
  footerText : Option Str
  allowedExtensions : List Str

/-- `[ext.lower() for ext in self.config["allowed_extensions"]]`. -/
def loweredExtensions (cfg : Config) : List Str :=
  cfg.allowedExtensions.map (List.map Char.toLower)

/-- The replacement block a run writes for a given directory listing and
link-path prefix (table generation composed with block assembly). -/
def newBlockOf (cfg : Config) (entries : List DirEntry) (basePath : Str) : Str :=
  buildGeneratedBlock cfg.openingMarker cfg.headerText cfg.footerText
    cfg.closingMarker
    (generateTable (findImageFiles entries (loweredExtensions cfg)) basePath
      cfg.columns)

/-- Embeds `TableGenerator.process_directory` with the filesystem passed
explicitly: `readme` is the README content (`none` = `readme_path.exists()`
false), `entries` the directory listing, `basePath` the link-path prefix the
source derives from the directory's position under the root.  The result is
the content written back, `none` when no write happens. -/
def processDirectory (cfg : Config) (readme : Option Str)
    (entries : List DirEntry) (basePath : Str) : Option Str :=
  match readme with
  | none => none
  | some content =>
    match findReadmeWithMarkers content cfg.openingMarker cfg.closingMarker with
    | (false, _, _, _) => none
    | (true, beforeText, _, afterText) =>
      let imageNames := findImageFiles entries (loweredExtensions cfg)
      let table := generateTable imageNames basePath cfg.columns
      let newGeneratedBlock :=
        buildGeneratedBlock cfg.openingMarker cfg.headerText cfg.footerText
          cfg.closingMarker table
      some (beforeText ++ newGeneratedBlock ++ afterText)

/-! ## Splitting lemmas for appended texts -/

section SpliceLemmas

lemma take_len_append (a b : Str) : (a ++ b).take a.length = a :=
  List.take_left a b

lemma drop_len_append (a b : Str) : (a ++ b).drop a.length = b :=
  List.drop_left a b

lemma isPrefixOf_append_self (a b : Str) : a.isPrefixOf (a ++ b) = true :=
  List.isPrefixOf_iff_prefix.mpr (List.prefix_append a b)

end SpliceLemmas

end TablesGenerator

namespace TablesGenerator

/-- C1: if the locator reports Found, the triple need not reconstruct the
text: on `"Bxx A"` with opening marker `"A"` and closing marker `"B"` the
closing marker's occurrence ends before the opening marker's start, the
locator still reports Found, and `prefix ++ block ++ suffix` is `"Bxx xx A"`,
not the original text. -/
theorem locate_found_roundtrip_cex :
    (findReadmeWithMarkers "Bxx A".toList "A".toList "B".toList).1 = true ∧
    (findReadmeWithMarkers "Bxx A".toList "A".toList "B".toList).2.1 ++
      (findReadmeWithMarkers "Bxx A".toList "A".toList "B".toList).2.2.1 ++
      (findReadmeWithMarkers "Bxx A".toList "A".toList "B".toList).2.2.2 ≠
      "Bxx A".toList := by
  decide

/-- C1 (amended): whenever the locator reports Found and the replaceable
span's end (first closing-marker index plus the closing marker's length) is
not before its start (first opening-marker index), the returned triple
satisfies `prefix ++ block ++ suffix = text` byte for byte. -/
theorem locate_found_roundtrip (t o c : Str) (s e0 : Nat)
    (hs : strFind t o = some s) (he : strFind t c = some e0)
    (hle : s ≤ e0 + c.length) :
    (findReadmeWithMarkers t o c).1 = true ∧
    (findReadmeWithMarkers t o c).2.1 ++ (findReadmeWithMarkers t o c).2.2.1 ++
      (findReadmeWithMarkers t o c).2.2.2 = t := by
  simp only [findReadmeWithMarkers, hs, he]
  refine ⟨trivial, ?_⟩
  have hsplit : t.take s ++ (t.drop s).take (e0 + c.length - s) =
      t.take (e0 + c.length) := by
    rw [← List.take_add]
    congr 1
    omega
  rw [hsplit, List.take_append_drop]

/-- C1 witness at `t = "ab"`, `o = "a"`, `c = "b"`. -/
theorem locate_found_roundtrip_witness :
    strFind "ab".toList "a".toList = some 0 ∧
    strFind "ab".toList "b".toList = some 1 ∧
    0 ≤ 1 + "b".toList.length ∧
    ((findReadmeWithMarkers "ab".toList "a".toList "b".toList).1 = true ∧
     (findReadmeWithMarkers "ab".toList "a".toList "b".toList).2.1 ++
       (findReadmeWithMarkers "ab".toList "a".toList "b".toList).2.2.1 ++
       (findReadmeWithMarkers "ab".toList "a".toList "b".toList).2.2.2 =
       "ab".toList) :=
  ⟨by decide, by decide, by decide,
    locate_found_roundtrip "ab".toList "a".toList "b".toList 0 1
      (by decide) (by decide) (by decide)⟩

/-- C2: the spec's side condition (the markers do not recur inside `M`) is
not enough: on `A = "O"`, `open = "O"`, `M = ""`, `close = "C"`, `B = ""`
neither marker occurs in `M`, yet the locator latches onto the earlier
occurrence of the opening marker inside `A` and returns
`(true, "", "OOC", "")` instead of `(true, "O", "OC", "")`. -/
theorem locate_span_cex :
    (∀ i, occursAt "O".toList ([] : Str) i = false) ∧
    (∀ i, occursAt "C".toList ([] : Str) i = false) ∧
    findReadmeWithMarkers
        ("O".toList ++ "O".toList ++ ([] : Str) ++ "C".toList ++ ([] : Str))
        "O".toList "C".toList ≠
      (true, "O".toList, "O".toList ++ ([] : Str) ++ "C".toList, ([] : Str)) := by
  refine ⟨?_, ?_, by decide⟩ <;>
    · intro i
      simp [occursAt, List.isPrefixOf]

/-- C2 (amended): for `text = A ++ open ++ M ++ close ++ B` where the opening
marker does not occur in the text before offset `|A|` and the closing marker
does not occur before offset `|A| + |open| + |M|` (in particular neither
recurs inside `M`, but they must also not occur earlier, e.g. inside `A`),
the locator returns `prefix = A`, `block = open ++ M ++ close`,
`suffix = B`. -/
theorem locate_span_correct (A o M c B : Str)
    (hA : ∀ j, j < A.length →
      occursAt o (A ++ o ++ M ++ c ++ B) j = false)
    (hc : ∀ j, j < A.length + o.length + M.length →
      occursAt c (A ++ o ++ M ++ c ++ B) j = false) :
    findReadmeWithMarkers (A ++ o ++ M ++ c ++ B) o c =
      (true, A, o ++ M ++ c, B) := by
  have hassoc1 : A ++ o ++ M ++ c ++ B = A ++ (o ++ M ++ c ++ B) := by
    simp [List.append_assoc]
  have hassoc2 : A ++ o ++ M ++ c ++ B = (A ++ o ++ M) ++ (c ++ B) := by
    simp [List.append_assoc]
  have hassoc3 : A ++ o ++ M ++ c ++ B = (A ++ o ++ M ++ c) ++ B := by
    simp [List.append_assoc]
  have hassoc4 : o ++ M ++ c ++ B = (o ++ M ++ c) ++ B := by
    simp [List.append_assoc]
  have hlen2 : (A ++ o ++ M).length = A.length + o.length + M.length := by
    simp only [List.length_append]
  have hlen3 : (A ++ o ++ M ++ c).length =
      A.length + o.length + M.length + c.length := by
    simp only [List.length_append]
  have hlen4 : (o ++ M ++ c).length = o.length + M.length + c.length := by
    simp only [List.length_append]
  have h1 : (A ++ o ++ M ++ c ++ B).take A.length = A := by
    rw [hassoc1]
    exact take_len_append A (o ++ M ++ c ++ B)
  have h2 : (A ++ o ++ M ++ c ++ B).drop A.length = o ++ M ++ c ++ B := by
    rw [hassoc1]
    exact drop_len_append A (o ++ M ++ c ++ B)
  have h5 : (A ++ o ++ M ++ c ++ B).drop (A.length + o.length + M.length) =
      c ++ B := by
    rw [hassoc2, ← hlen2]
    exact drop_len_append (A ++ o ++ M) (c ++ B)
  have h4 : (A ++ o ++ M ++ c ++ B).drop
      (A.length + o.length + M.length + c.length) = B := by
    rw [hassoc3, ← hlen3]
    exact drop_len_append (A ++ o ++ M ++ c) B
  have h3 : (o ++ M ++ c ++ B).take (o.length + M.length + c.length) =
      o ++ M ++ c := by
    rw [hassoc4, ← hlen4]
    exact take_len_append (o ++ M ++ c) B
  have hfo : strFind (A ++ o ++ M ++ c ++ B) o = some A.length := by
    rw [strFind_eq_some_iff]
    refine ⟨?_, hA⟩
    rw [occursAt, h2, show o ++ M ++ c ++ B = o ++ (M ++ c ++ B) from by
      simp [List.append_assoc]]
    exact isPrefixOf_append_self o (M ++ c ++ B)
  have hfc : strFind (A ++ o ++ M ++ c ++ B) c =
      some (A.length + o.length + M.length) := by
    rw [strFind_eq_some_iff]
    refine ⟨?_, hc⟩
    rw [occursAt, h5]
    exact isPrefixOf_append_self c B
  simp only [findReadmeWithMarkers, hfo, hfc]
  have he : A.length + o.length + M.length + c.length - A.length =
      o.length + M.length + c.length := by omega
  rw [Prod.mk.injEq, Prod.mk.injEq, Prod.mk.injEq]
  exact ⟨rfl, h1, by rw [h2, he, h3], h4⟩

/-- C2 witness at `A = "x"`, `open = "["`, `M = "m"`, `close = "]"`,
`B = "y"`. -/
theorem locate_span_correct_witness :
    findReadmeWithMarkers
        ("x".toList ++ "[".toList ++ "m".toList ++ "]".toList ++ "y".toList)
        "[".toList "]".toList =
      (true, "x".toList, "[".toList ++ "m".toList ++ "]".toList, "y".toList) :=
  locate_span_correct "x".toList "[".toList "m".toList "]".toList "y".toList
    (by decide) (by decide)

/-- C3: the locator reports NotFound exactly when at least one marker is
absent from the text; and when both markers occur — even with the closing
marker's occurrence strictly before the opening marker's — it reports
Found. -/
theorem locate_notFound_iff :
    (∀ t o c : Str,
      (findReadmeWithMarkers t o c).1 = false ↔ ¬occursIn o t ∨ ¬occursIn c t) ∧
    (∀ t o c : Str, ∀ i j : Nat,
      occursAt o t i = true → occursAt c t j = true → j < i →
      (findReadmeWithMarkers t o c).1 = true) := by
  have hfound : ∀ t o c : Str, ∀ so sc : Nat, strFind t o = some so →
      strFind t c = some sc → (findReadmeWithMarkers t o c).1 = true := by
    intro t o c so sc hso hsc
    simp [findReadmeWithMarkers, hso, hsc]
  constructor
  · intro t o c
    constructor
    · intro hf
      by_contra hcon
      push_neg at hcon
      obtain ⟨i, hi⟩ := hcon.1
      obtain ⟨j, hj⟩ := hcon.2
      rcases hso : strFind t o with _ | so
      · exact absurd ((strFind_eq_none_iff t o).mp hso i) (by simp [hi])
      rcases hsc : strFind t c with _ | sc
      · exact absurd ((strFind_eq_none_iff t c).mp hsc j) (by simp [hj])
      rw [hfound t o c so sc hso hsc] at hf
      cases hf
    · intro habs
      rcases habs with habs | habs
      · have hno : strFind t o = none := by
          rw [strFind_eq_none_iff]
          intro i
          cases hh : occursAt o t i
          · rfl
          · exact absurd ⟨i, hh⟩ habs
        simp [findReadmeWithMarkers, hno]
      · have hnc : strFind t c = none := by
          rw [strFind_eq_none_iff]
          intro j
          cases hh : occursAt c t j
          · rfl
          · exact absurd ⟨j, hh⟩ habs
        cases hso : strFind t o <;> simp [findReadmeWithMarkers, hso, hnc]
  · intro t o c i j hi hj _
    have hio : ∃ k, occursAt o t k = true := ⟨i, hi⟩
    have hic : ∃ k, occursAt c t k = true := ⟨j, hj⟩
    rcases hso : strFind t o with _ | so
    · exact absurd ((strFind_eq_none_iff t o).mp hso i) (by simp [hi])
    rcases hsc : strFind t c with _ | sc
    · exact absurd ((strFind_eq_none_iff t c).mp hsc j) (by simp [hj])
    exact hfound t o c so sc hso hsc

/-- C3 witness: on `"CxO"` the closing marker `"C"` precedes the opening
marker `"O"`, yet the locator reports Found. -/
theorem locate_notFound_iff_witness :
    (findReadmeWithMarkers "CxO".toList "O".toList "C".toList).1 = true :=
  locate_notFound_iff.2 "CxO".toList "O".toList "C".toList 2 0
    (by decide) (by decide) (by decide)

/-! ## Invariants of the cell-packing loop -/

section PackRowsLemmas

lemma length_append_singleton (cur : List Str) (cell : Str) :
    (cur ++ [cell]).length = cur.length + 1 := by
  simp

lemma isEmpty_false_of_ne (l : List Str) (h : l ≠ []) : l.isEmpty = false := by
  cases l
  · exact absurd rfl h
  · rfl

lemma length_pos_of_ne (l : List Str) (h : l ≠ []) : 0 < l.length := by
  cases l
  · exact absurd rfl h
  · simp

lemma packRows_nil_of_empty (C : Nat) : packRows C [] [] = [] := by
  simp [packRows]

lemma packRows_nil_of_leftover (C : Nat) (cur : List Str) (h : cur ≠ []) :
    packRows C [] cur = [padRow C cur] := by
  simp [packRows, isEmpty_false_of_ne cur h]

lemma packRows_length (C : Nat) (hC : 0 < C) :
    ∀ cells currentRow : List Str, currentRow.length < C →
      (packRows C cells currentRow).length =
        (currentRow.length + cells.length + C - 1) / C := by
  intro cells
  induction cells with
  | nil =>
    intro cur hcur
    by_cases hne : cur = []
    · subst hne
      rw [packRows_nil_of_empty]
      simp only [List.length_nil]
      rw [Nat.div_eq_of_lt (by omega)]
    · have hpos := length_pos_of_ne cur hne
      rw [packRows_nil_of_leftover C cur hne]
      simp only [List.length_singleton, List.length_nil]
      have harith : cur.length + 0 + C - 1 = (cur.length - 1) + C := by omega
      rw [harith, Nat.add_div_right _ hC, Nat.div_eq_of_lt (by omega)]
  | cons cell rest ih =>
    intro cur hcur
    by_cases hfull : (cur ++ [cell]).length = C
    · have hc1 : cur.length + 1 = C := by
        have := length_append_singleton cur cell
        omega
      simp only [packRows]
      rw [if_pos hfull]
      simp only [List.length_cons, List.length_nil]
      rw [ih [] (by simp only [List.length_nil]; omega)]
      simp only [List.length_nil]
      have harith : cur.length + (rest.length + 1) + C - 1 =
          (0 + rest.length + C - 1) + C := by omega
      rw [harith, Nat.add_div_right _ hC]
    · have hlt : (cur ++ [cell]).length < C := by
        rw [length_append_singleton] at hfull ⊢
        omega
      simp only [packRows]
      rw [if_neg hfull]
      rw [ih (cur ++ [cell]) hlt]
      simp only [List.length_cons]
      congr 1
      rw [length_append_singleton]
      omega

lemma packRows_rowLength (C : Nat) :
    ∀ cells currentRow : List Str, currentRow.length < C →
      ∀ r ∈ packRows C cells currentRow, r.length = C := by
  intro cells
  induction cells with
  | nil =>
    intro cur hcur r hr
    by_cases hne : cur = []
    · subst hne
      rw [packRows_nil_of_empty] at hr
      simp at hr
    · have hpos := length_pos_of_ne cur hne
      rw [packRows_nil_of_leftover C cur hne, List.mem_singleton] at hr
      subst hr
      simp only [padRow, List.length_append, List.length_replicate]
      omega
  | cons cell rest ih =>
    intro cur hcur r hr
    by_cases hfull : (cur ++ [cell]).length = C
    · simp only [packRows] at hr
      rw [if_pos hfull, List.mem_cons] at hr
      rcases hr with rfl | hr
      · exact hfull
      · exact ih [] (by simp only [List.length_nil]; omega) r hr
    · have hlt : (cur ++ [cell]).length < C := by
        rw [length_append_singleton] at hfull ⊢
        omega
      simp only [packRows] at hr
      rw [if_neg hfull] at hr
      exact ih (cur ++ [cell]) hlt r hr

lemma packRows_flatten (C : Nat) :
    ∀ cells currentRow : List Str, currentRow.length < C →
      (packRows C cells currentRow).flatten =
        currentRow ++ cells ++
          List.replicate ((C - (currentRow.length + cells.length) % C) % C)
            ([' '] : Str) := by
  intro cells
  induction cells with
  | nil =>
    intro cur hcur
    by_cases hne : cur = []
    · subst hne
      rw [packRows_nil_of_empty]
      simp [Nat.mod_self]
    · have hpos := length_pos_of_ne cur hne
      rw [packRows_nil_of_leftover C cur hne]
      simp only [List.flatten_cons, List.flatten_nil, List.append_nil, padRow,
        List.length_nil]
      have h1 : (cur.length + 0) % C = cur.length := by
        rw [Nat.add_zero, Nat.mod_eq_of_lt hcur]
      have h2 : (C - cur.length) % C = C - cur.length :=
        Nat.mod_eq_of_lt (by omega)
      rw [h1, h2]
  | cons cell rest ih =>
    intro cur hcur
    by_cases hfull : (cur ++ [cell]).length = C
    · have hc1 : cur.length + 1 = C := by
        have := length_append_singleton cur cell
        omega
      simp only [packRows]
      rw [if_pos hfull, List.flatten_cons,
        ih [] (by simp only [List.length_nil]; omega)]
      have hnum : (C - (([] : List Str).length + rest.length) % C) % C =
          (C - (cur.length + (cell :: rest).length) % C) % C := by
        simp only [List.length_nil, List.length_cons]
        rw [show cur.length + (rest.length + 1) = C + rest.length from by omega,
          Nat.add_mod_left, Nat.zero_add]
      rw [hnum]
      simp [List.append_assoc]
    · have hlt : (cur ++ [cell]).length < C := by
        rw [length_append_singleton] at hfull ⊢
        omega
      simp only [packRows]
      rw [if_neg hfull, ih (cur ++ [cell]) hlt]
      have hnum : (C - ((cur ++ [cell]).length + rest.length) % C) % C =
          (C - (cur.length + (cell :: rest).length) % C) % C := by
        simp only [length_append_singleton, List.length_cons]
        rw [show cur.length + 1 + rest.length = cur.length + (rest.length + 1)
          from by omega]
      rw [hnum]
      simp [List.append_assoc]

end PackRowsLemmas

/-- C4: for a non-empty cell list of length `L` and `columns = C ≥ 1`, the
packing loop of `_generate_table` produces exactly `⌈L / C⌉ = (L + C - 1) / C`
data rows, every row has exactly `C` cells, and flattening the rows gives the
cells in input order followed only by right-padding `" "` cells
(`(C - L % C) % C` of them, i.e. none when `C` divides `L`). -/
theorem packRows_grid (cells : List Str) (C : Nat) (hC : 0 < C)
    (_hL : cells ≠ []) :
    (packRows C cells []).length = (cells.length + C - 1) / C ∧
    (∀ r ∈ packRows C cells [], r.length = C) ∧
    (packRows C cells []).flatten =
      cells ++ List.replicate ((C - cells.length % C) % C) ([' '] : Str) := by
  have h0 : ([] : List Str).length < C := by simpa using hC
  refine ⟨?_, packRows_rowLength C cells [] h0, ?_⟩
  · have := packRows_length C hC cells [] h0
    simpa using this
  · have := packRows_flatten C cells [] h0
    simpa using this

/-- C4 witness: three cells in two columns give two rows of two cells each,
the second row right-padded with one `" "` cell. -/
theorem packRows_grid_witness :
    (0 : Nat) < 2 ∧ ["a".toList, "bb".toList, "c".toList] ≠ ([] : List Str) ∧
    ((packRows 2 ["a".toList, "bb".toList, "c".toList] []).length =
        (["a".toList, "bb".toList, "c".toList].length + 2 - 1) / 2 ∧
      (∀ r ∈ packRows 2 ["a".toList, "bb".toList, "c".toList] [],
        r.length = 2) ∧
      (packRows 2 ["a".toList, "bb".toList, "c".toList] []).flatten =
        ["a".toList, "bb".toList, "c".toList] ++
          List.replicate
            ((2 - ["a".toList, "bb".toList, "c".toList].length % 2) % 2)
            ([' '] : Str)) :=
  ⟨by decide, by decide,
    packRows_grid ["a".toList, "bb".toList, "c".toList] 2 (by decide)
      (by decide)⟩

/-- C5: for non-empty input `_generate_table` emits the hidden header row of
`C` empty cells, the `:---:` separator row, then the data rows; each cell is
exactly `[![preview](P/N)](P/N)` with the identical target used for the image
embed and the click-through, and each row is pipe-delimited with a single
space around each cell.  Checked both in general and on the concrete
three-image, two-column example. -/
theorem generateTable_format (items : List Str) (bp : Str) (C : Nat)
    (h : items ≠ []) :
    generateTable items bp C =
      renderRow (List.replicate C ([] : Str)) ++
        '\n' :: renderRow (List.replicate C ":---:".toList) ++
        '\n' :: strJoin ['\n']
          ((packRows C (items.map (cellFor bp)) []).map renderRow) ∧
    (∀ n : Str, cellFor bp n =
      "[![preview](".toList ++ (bp ++ '/' :: n) ++ ")](".toList ++
        (bp ++ '/' :: n) ++ [')']) ∧
    (∀ row : List Str, renderRow row =
      "| ".toList ++ strJoin " | ".toList row ++ " |".toList) ∧
    generateTable ["a.jpg".toList, "b.png".toList, "c.JPG".toList]
        "/w/n".toList 2 =
      ("|  |  |\n| :---: | :---: |\n| [![preview](/w/n/a.jpg)](/w/n/a.jpg) | [![preview](/w/n/b.png)](/w/n/b.png) |\n| [![preview](/w/n/c.JPG)](/w/n/c.JPG) |   |").toList := by
    refine ⟨?_, fun n => rfl, fun row => rfl, by decide⟩
    have hne : items.isEmpty = false := by
      cases items
      · exact absurd rfl h
      · rfl
    simp [generateTable, hne]

/-- C5 witness at the one-item, one-column instance. -/
theorem generateTable_format_witness :
    ["x".toList] ≠ ([] : List Str) ∧
    (generateTable ["x".toList] "p".toList 1 =
        renderRow (List.replicate 1 ([] : Str)) ++
          '\n' :: renderRow (List.replicate 1 ":---:".toList) ++
          '\n' :: strJoin ['\n']
            ((packRows 1 (["x".toList].map (cellFor "p".toList)) []).map
              renderRow) ∧
      (∀ n : Str, cellFor "p".toList n =
        "[![preview](".toList ++ ("p".toList ++ '/' :: n) ++ ")](".toList ++
          ("p".toList ++ '/' :: n) ++ [')']) ∧
      (∀ row : List Str, renderRow row =
        "| ".toList ++ strJoin " | ".toList row ++ " |".toList) ∧
      generateTable ["a.jpg".toList, "b.png".toList, "c.JPG".toList]
          "/w/n".toList 2 =
        ("|  |  |\n| :---: | :---: |\n| [![preview](/w/n/a.jpg)](/w/n/a.jpg) | [![preview](/w/n/b.png)](/w/n/b.png) |\n| [![preview](/w/n/c.JPG)](/w/n/c.JPG) |   |").toList) :=
  ⟨by decide, generateTable_format ["x".toList] "p".toList 1 (by decide)⟩

/-- C8: for the empty item list the table builder returns the fixed
placeholder notice for every column count and link-path prefix, and the
placeholder contains neither a pipe character nor a `:---:` separator cell —
no header, separator or data row is emitted. -/
theorem generateTable_empty :
    (∀ (C : Nat) (bp : Str), generateTable [] bp C = placeholderText) ∧
    strFind placeholderText ['|'] = none ∧
    strFind placeholderText ":---:".toList = none :=
  ⟨fun _ _ => rfl, by decide, by decide⟩

/-! ## The name ordering used by `list.sort(key=lambda p: p.name)` -/

section SortLemmas

lemma lexLe_total (a : Str) : ∀ b : Str, lexLe a b = true ∨ lexLe b a = true := by
  induction a with
  | nil => intro b; exact Or.inl rfl
  | cons x xs ih =>
    intro b
    cases b with
    | nil => exact Or.inr rfl
    | cons y ys =>
      rcases lt_trichotomy x y with hlt | heq | hgt
      · left
        simp [lexLe, hlt]
      · subst heq
        rcases ih ys with hxy | hyx
        · left
          simp [lexLe, hxy]
        · right
          simp [lexLe, hyx]
      · right
        simp [lexLe, hgt]

lemma lexLe_trans : ∀ a b c : Str,
    lexLe a b = true → lexLe b c = true → lexLe a c = true := by
  intro a
  induction a with
  | nil => intro b c _ _; rfl
  | cons x xs ih =>
    intro b c hab hbc
    cases b with
    | nil => simp [lexLe] at hab
    | cons y ys =>
      cases c with
      | nil => simp [lexLe] at hbc
      | cons z zs =>
        simp only [lexLe] at hab hbc ⊢
        by_cases hxy : x < y
        · by_cases hyz : y < z
          · simp [lt_trans hxy hyz]
          · rw [if_neg hyz] at hbc
            by_cases hyz2 : y = z
            · subst hyz2
              simp [hxy]
            · rw [if_neg hyz2] at hbc
              cases hbc
        · rw [if_neg hxy] at hab
          by_cases hxy2 : x = y
          · subst hxy2
            rw [if_pos rfl] at hab
            by_cases hyz : x < z
            · simp [hyz]
            · rw [if_neg hyz] at hbc
              by_cases hyz2 : x = z
              · subst hyz2
                rw [if_neg hyz, if_pos rfl]
                rw [if_pos rfl] at hbc
                exact ih ys zs hab hbc
              · rw [if_neg hyz2] at hbc
                cases hbc
          · rw [if_neg hxy2] at hab
            cases hab

lemma perm_insertSorted (x : Str) (l : List Str) :
    (insertSorted x l).Perm (x :: l) := by
  induction l with
  | nil => exact List.Perm.refl _
  | cons y ys ih =>
    simp only [insertSorted]
    by_cases h : lexLe x y = true
    · rw [if_pos h]
    · rw [if_neg h]
      exact (List.Perm.cons y ih).trans (List.Perm.swap x y ys)

lemma sortNames_perm : ∀ l : List Str, (sortNames l).Perm l := by
  intro l
  induction l with
  | nil => exact List.Perm.refl _
  | cons x xs ih =>
    exact (perm_insertSorted x (sortNames xs)).trans (List.Perm.cons x ih)

lemma sorted_insertSorted (x : Str) (l : List Str)
    (hl : l.Pairwise (fun a b => lexLe a b = true)) :
    (insertSorted x l).Pairwise (fun a b => lexLe a b = true) := by
  induction l with
  | nil => simp [insertSorted]
  | cons y ys ih =>
    rcases List.pairwise_cons.mp hl with ⟨hy, hys⟩
    simp only [insertSorted]
    by_cases h : lexLe x y = true
    · rw [if_pos h]
      refine List.pairwise_cons.mpr ⟨?_, hl⟩
      intro z hz
      rcases List.mem_cons.mp hz with rfl | hz'
      · exact h
      · exact lexLe_trans x y z h (hy z hz')
    · rw [if_neg h]
      refine List.pairwise_cons.mpr ⟨?_, ih hys⟩
      intro z hz
      rcases List.mem_cons.mp ((perm_insertSorted x ys).mem_iff.mp hz) with
        hz0 | hz'
      · rw [hz0]
        rcases lexLe_total x y with ht | ht
        · exact absurd ht h
        · exact ht
      · exact hy z hz'

lemma sortNames_sorted : ∀ l : List Str,
    (sortNames l).Pairwise (fun a b => lexLe a b = true) := by
  intro l
  induction l with
  | nil => simp [sortNames]
  | cons x xs ih => exact sorted_insertSorted x (sortNames xs) ih

end SortLemmas

/-- C9: `_find_image_files` keeps exactly the file entries whose lower-cased
extension is in the (lower-cased) allowed list, preserves each kept name's
case, and returns the names sorted lexicographically ascending; on files
`b.png`, `a.jpg`, `c.JPG` with allowed extensions `.jpg`, `.png` the order is
`a.jpg, b.png, c.JPG`. -/
theorem findImageFiles_order :
    (∀ (entries : List DirEntry) (allowed : List Str),
      (findImageFiles entries allowed).Pairwise (fun a b => lexLe a b = true) ∧
      (findImageFiles entries allowed).Perm
        ((entries.filter fun e =>
          e.isFile &&
            allowed.contains ((pathSuffix e.name).map Char.toLower)).map
          (·.name))) ∧
    findImageFiles
        [⟨"b.png".toList, true⟩, ⟨"a.jpg".toList, true⟩,
          ⟨"c.JPG".toList, true⟩]
        [".jpg".toList, ".png".toList] =
      ["a.jpg".toList, "b.png".toList, "c.JPG".toList] :=
  ⟨fun _ _ => ⟨sortNames_sorted _, sortNames_perm _⟩, by decide⟩

/-- C10: extension matching looks only at the final dot-suffix as computed by
`PurePath.suffix`: a file named `.jpg` has suffix `""` and is never
enumerated even though its lower-cased name is in the allowed list, while
`a.tar.jpg` is matched by its last extension `.jpg`. -/
theorem pathSuffix_lastDot :
    pathSuffix ".jpg".toList = [] ∧
    (".jpg".toList.map Char.toLower) ∈ [".jpg".toList] ∧
    findImageFiles [⟨".jpg".toList, true⟩] [".jpg".toList] = [] ∧
    pathSuffix "a.tar.jpg".toList = ".jpg".toList ∧
    findImageFiles [⟨".jpg".toList, true⟩, ⟨"a.tar.jpg".toList, true⟩]
        [".jpg".toList] = ["a.tar.jpg".toList] := by
  decide

/-! ## Directory processing -/

section ProcessLemmas

lemma strJoin_append_single (sep : Str) :
    ∀ (l : List Str) (x : Str), ∃ pre, strJoin sep (l ++ [x]) = pre ++ x := by
  intro l
  induction l with
  | nil =>
    intro x
    exact ⟨[], rfl⟩
  | cons y ys ih =>
    intro x
    obtain ⟨pre, hpre⟩ := ih x
    cases ys with
    | nil => exact ⟨y ++ sep, rfl⟩
    | cons z zs =>
      refine ⟨y ++ sep ++ pre, ?_⟩
      show y ++ sep ++ strJoin sep ((z :: zs) ++ [x]) = y ++ sep ++ pre ++ x
      rw [hpre]
      simp [List.append_assoc]

lemma buildGeneratedBlock_ends_with_close (o : Str) (h f : Option Str)
    (c t : Str) : ∃ pre, buildGeneratedBlock o h f c t = pre ++ c := by
  have hsplit : ([some o, h, some [], some t, some [], f, some c] :
      List (Option Str)).filterMap id =
      ([some o, h, some [], some t, some [], f] :
        List (Option Str)).filterMap id ++ [c] := by
    rw [show ([some o, h, some [], some t, some [], f, some c] :
        List (Option Str)) =
      [some o, h, some [], some t, some [], f] ++ [some c] from rfl,
      List.filterMap_append]
    rfl
  rw [buildGeneratedBlock, hsplit]
  exact strJoin_append_single ['\n'] _ c

lemma close_length_le_newBlock (cfg : Config) (entries : List DirEntry)
    (bp : Str) :
    cfg.closingMarker.length ≤ (newBlockOf cfg entries bp).length := by
  obtain ⟨pre, hpre⟩ := buildGeneratedBlock_ends_with_close cfg.openingMarker
    cfg.headerText cfg.footerText cfg.closingMarker
    (generateTable (findImageFiles entries (loweredExtensions cfg)) bp
      cfg.columns)
  rw [newBlockOf, hpre, List.length_append]
  omega

end ProcessLemmas

/-- C6: `process_directory` never touches text outside the marker span — a
missing README or an unfound marker pair produces no write at all, and when
both markers are found the written content is the original prefix (text
before the opening marker's first occurrence), some replacement block, and
the original suffix (text after the closing marker's first occurrence's
end), byte for byte. -/
theorem processDirectory_frame (cfg : Config) (entries : List DirEntry)
    (bp : Str) :
    processDirectory cfg none entries bp = none ∧
    (∀ content : Str,
      (findReadmeWithMarkers content cfg.openingMarker
        cfg.closingMarker).1 = false →
      processDirectory cfg (some content) entries bp = none) ∧
    (∀ (content : Str) (s e0 : Nat),
      strFind content cfg.openingMarker = some s →
      strFind content cfg.closingMarker = some e0 →
      ∃ mid, processDirectory cfg (some content) entries bp =
        some (content.take s ++ mid ++
          content.drop (e0 + cfg.closingMarker.length))) := by
  refine ⟨rfl, ?_, ?_⟩
  · intro content hnf
    rcases hr : findReadmeWithMarkers content cfg.openingMarker
      cfg.closingMarker with ⟨b, p1, p2, p3⟩
    rw [hr] at hnf
    simp only at hnf
    subst hnf
    simp only [processDirectory, hr]
  · intro content s e0 hs he
    refine ⟨newBlockOf cfg entries bp, ?_⟩
    simp only [processDirectory, findReadmeWithMarkers, hs, he]
    rfl

/-- C6 witness on the document `"xxOyCzz"` with markers `"O"`/`"C"`. -/
theorem processDirectory_frame_witness :
    strFind "xxOyCzz".toList "O".toList = some 2 ∧
    strFind "xxOyCzz".toList "C".toList = some 4 ∧
    ∃ mid, processDirectory
        ⟨"O".toList, "C".toList, 1, some [], some [], []⟩
        (some "xxOyCzz".toList) [] "p".toList =
      some ("xxOyCzz".toList.take 2 ++ mid ++
        "xxOyCzz".toList.drop (4 + "C".toList.length)) :=
  ⟨by decide, by decide,
    (processDirectory_frame ⟨"O".toList, "C".toList, 1, some [], some [], []⟩
      [] "p".toList).2.2 "xxOyCzz".toList 2 4 (by decide) (by decide)⟩

/-- C7: the second run is NOT always a no-op on the first run's output.  With
markers `"O"`/`"C"` and header text `"C"`, processing `"OC"` writes a block
whose header line contains the closing marker; the second run's independent
closing-marker search then stops at the header line and the rewritten
document differs from the first run's output. -/
theorem processDirectory_idempotent_cex :
    processDirectory
        ⟨"O".toList, "C".toList, 1, some "C".toList, some [], []⟩
        (some "OC".toList) [] "p".toList =
      some "O\nC\n\n_(В этой директории нет изображений)_\n\n\nC".toList ∧
    processDirectory
        ⟨"O".toList, "C".toList, 1, some "C".toList, some [], []⟩
        (some "O\nC\n\n_(В этой директории нет изображений)_\n\n\nC".toList)
        [] "p".toList ≠
      some "O\nC\n\n_(В этой директории нет изображений)_\n\n\nC".toList := by
  decide

/-- C7 (amended): every written document has the shape
`A ++ newBlock ++ B`, and a second run is a no-op on it provided the opening
marker's first occurrence in it is at the start of the regenerated block and
the closing marker's first occurrence is the one ending the block (which can
fail when a marker also occurs in the header, footer or table text, or
occurred before the opening marker in the original document). -/
theorem processDirectory_idempotent (cfg : Config) (entries : List DirEntry)
    (bp : Str) :
    (∀ (content w : Str),
      processDirectory cfg (some content) entries bp = some w →
      ∃ A B, w = A ++ newBlockOf cfg entries bp ++ B) ∧
    (∀ A B : Str,
      strFind (A ++ newBlockOf cfg entries bp ++ B) cfg.openingMarker =
        some A.length →
      strFind (A ++ newBlockOf cfg entries bp ++ B) cfg.closingMarker =
        some (A.length + (newBlockOf cfg entries bp).length -
          cfg.closingMarker.length) →
      processDirectory cfg (some (A ++ newBlockOf cfg entries bp ++ B))
        entries bp = some (A ++ newBlockOf cfg entries bp ++ B)) := by
  constructor
  · intro content w hw
    rcases hr : findReadmeWithMarkers content cfg.openingMarker
      cfg.closingMarker with ⟨b, p1, p2, p3⟩
    cases b with
    | false =>
      simp only [processDirectory, hr] at hw
      cases hw
    | true =>
      simp only [processDirectory, hr, Option.some.injEq] at hw
      exact ⟨p1, p3, hw.symm⟩
  · intro A B hO hC
    have hclen := close_length_le_newBlock cfg entries bp
    have he : A.length + (newBlockOf cfg entries bp).length -
        cfg.closingMarker.length + cfg.closingMarker.length =
        A.length + (newBlockOf cfg entries bp).length := by omega
    have h1 : (A ++ newBlockOf cfg entries bp ++ B).take A.length = A := by
      rw [show A ++ newBlockOf cfg entries bp ++ B =
        A ++ (newBlockOf cfg entries bp ++ B) from by simp [List.append_assoc]]
      exact take_len_append A _
    have h2 : (A ++ newBlockOf cfg entries bp ++ B).drop
        (A.length + (newBlockOf cfg entries bp).length) = B := by
      rw [show A.length + (newBlockOf cfg entries bp).length =
        (A ++ newBlockOf cfg entries bp).length from by simp]
      exact drop_len_append _ B
    simp only [processDirectory, findReadmeWithMarkers, hO, hC]
    rw [he, h1, h2]
    rfl

/-- C7 witness: a canonical post-run document whose markers occur nowhere
else is a fixed point of the run. -/
theorem processDirectory_idempotent_witness :
    strFind ("x".toList ++
        newBlockOf ⟨"O".toList, "C".toList, 1, some "h".toList,
          some "f".toList, []⟩ [] "p".toList ++ "y".toList) "O".toList =
      some "x".toList.length ∧
    strFind ("x".toList ++
        newBlockOf ⟨"O".toList, "C".toList, 1, some "h".toList,
          some "f".toList, []⟩ [] "p".toList ++ "y".toList) "C".toList =
      some ("x".toList.length +
        (newBlockOf ⟨"O".toList, "C".toList, 1, some "h".toList,
          some "f".toList, []⟩ [] "p".toList).length - "C".toList.length) ∧
    processDirectory
        ⟨"O".toList, "C".toList, 1, some "h".toList, some "f".toList, []⟩
        (some ("x".toList ++
          newBlockOf ⟨"O".toList, "C".toList, 1, some "h".toList,
            some "f".toList, []⟩ [] "p".toList ++ "y".toList)) [] "p".toList =
      some ("x".toList ++
        newBlockOf ⟨"O".toList, "C".toList, 1, some "h".toList,
          some "f".toList, []⟩ [] "p".toList ++ "y".toList) :=
  ⟨by decide, by decide,
    (processDirectory_idempotent
      ⟨"O".toList, "C".toList, 1, some "h".toList, some "f".toList, []⟩
      [] "p".toList).2 "x".toList "y".toList (by decide) (by decide)⟩
end TablesGenerator
